import Mathlib

set_option maxHeartbeats 1000000

namespace Learning

/-!
Shallow embedding of the repository's code for verification.

Part 1: the three anagram checkers of `src/leetcode/hashmaps/anagram.go`.
A Go string is a sequence of bytes, modelled as `List Nat` (each element
below 256 on real inputs).  `for _, c := range s` decodes the bytes as
UTF-8, yielding U+FFFD (with width 1) for each byte at which decoding
fails; `len(s)` is the byte length; `s[i]` is the i-th byte.  Go maps
`map[rune]int` are modelled as total functions `Nat → Int` (a missing key
reads as 0, exactly Go's zero-value semantics), with the set of inserted
keys tracked separately where the code iterates over the map.
-/

/-- Whether a byte is a UTF-8 continuation byte (0x80 to 0xBF). -/
def isCont (b : Nat) : Bool := decide (0x80 ≤ b) && decide (b ≤ 0xBF)

/-- Lower bound Go's utf8 acceptRanges table imposes on the second byte of
a multi-byte sequence starting with b0 (0xE0 requires 0xA0.., 0xF0
requires 0x90.., every other leader accepts 0x80..). -/
def b1lo (b0 : Nat) : Nat := if b0 = 0xE0 then 0xA0 else if b0 = 0xF0 then 0x90 else 0x80

/-- Upper bound on the second byte (0xED caps at 0x9F excluding UTF-16
surrogates, 0xF4 caps at 0x8F staying below U+110000, otherwise 0xBF). -/
def b1hi (b0 : Nat) : Nat := if b0 = 0xED then 0x9F else if b0 = 0xF4 then 0x8F else 0xBF

/-- Go's `for range` UTF-8 decoding of a byte sequence into a rune
sequence: ASCII bytes stand for themselves, valid multi-byte sequences
decode to their code point, and any byte at which decoding fails (invalid
leader, bad continuation, overlong form, surrogate, or truncated tail)
contributes U+FFFD = 0xFFFD and advances by one byte, matching
`utf8.DecodeRuneInString` returning `(RuneError, 1)`.  The extra fuel
argument only makes the recursion structural (each step consumes at least
one byte, so fuel equal to the byte length never runs out); it is not part
of the modelled Go semantics. -/
def decodeRunesAux : Nat → List Nat → List Nat
  | _, [] => []
  | 0, _ :: _ => []
  | fuel + 1, b0 :: r0 =>
    if b0 < 0x80 then b0 :: decodeRunesAux fuel r0
    else if 0xC2 ≤ b0 ∧ b0 ≤ 0xDF then
      match r0 with
      | b1 :: r1 =>
        if isCont b1 then ((b0 % 0x20) * 0x40 + b1 % 0x40) :: decodeRunesAux fuel r1
        else 0xFFFD :: decodeRunesAux fuel (b1 :: r1)
      | [] => [0xFFFD]
    else if 0xE0 ≤ b0 ∧ b0 ≤ 0xEF then
      match r0 with
      | b1 :: b2 :: r2 =>
        if (b1lo b0 ≤ b1 ∧ b1 ≤ b1hi b0) ∧ isCont b2 = true then
          ((b0 % 0x10) * 0x1000 + (b1 % 0x40) * 0x40 + b2 % 0x40) :: decodeRunesAux fuel r2
        else 0xFFFD :: decodeRunesAux fuel (b1 :: b2 :: r2)
      | other => 0xFFFD :: decodeRunesAux fuel other
    else if 0xF0 ≤ b0 ∧ b0 ≤ 0xF4 then
      match r0 with
      | b1 :: b2 :: b3 :: r3 =>
        if (b1lo b0 ≤ b1 ∧ b1 ≤ b1hi b0) ∧ isCont b2 = true ∧ isCont b3 = true then
          ((b0 % 8) * 0x40000 + (b1 % 0x40) * 0x1000 + (b2 % 0x40) * 0x40 + b3 % 0x40)
            :: decodeRunesAux fuel r3
        else 0xFFFD :: decodeRunesAux fuel (b1 :: b2 :: b3 :: r3)
      | other => 0xFFFD :: decodeRunesAux fuel other
    else 0xFFFD :: decodeRunesAux fuel r0

/-- The rune sequence Go's `for range` sees for a byte string. -/
def decodeRunes (l : List Nat) : List Nat := decodeRunesAux l.length l

/-- `frequency[c]++` on a Go map modelled as a total function. -/
def mapIncr (f : Nat → Int) (c : Nat) : Nat → Int :=
  fun x => if x = c then f x + 1 else f x

/-- `frequency[c]--` on a Go map modelled as a total function. -/
def mapDecr (f : Nat → Int) (c : Nat) : Nat → Int :=
  fun x => if x = c then f x - 1 else f x

/-- A freshly made Go map: every key reads as 0. -/
def emptyMap : Nat → Int := fun _ => 0

/-- The increment loop shared by isAnagram and isAnagramTwoMaps: count the
frequency of every rune of the list. -/
def buildFreq (l : List Nat) : Nat → Int := l.foldl mapIncr emptyMap

/-- The decrement loop of isAnagram over the runes of t: returns none as
soon as a rune's current count is 0 (the `return false` inside the loop),
otherwise the final map. -/
def decLoop : (Nat → Int) → List Nat → Option (Nat → Int)
  | f, [] => some f
  | f, c :: rest => if f c = 0 then none else decLoop (mapDecr f c) rest

/-- Embeds `isAnagram` (anagram.go, solution 2): byte-length guard, rune
frequency increment over s, checked decrement over the runes of t, then
the all-counts-zero check ranging over the map's keys — which are exactly
the distinct runes of s, since t's loop never inserts new keys. -/
def isAnagram (s t : List Nat) : Bool :=
  if s.length ≠ t.length then false
  else
    match decLoop (buildFreq (decodeRunes s)) (decodeRunes t) with
    | none => false
    | some f => (decodeRunes s).all (fun c => f c == 0)

/-- Embeds `isAnagramTwoMaps` (anagram.go, solution 1): byte-length guard,
two frequency maps, equality of counts at every key of frequencyS (the
distinct runes of s), then existence in frequencyS of every key of
frequencyT (the distinct runes of t). -/
def isAnagramTwoMaps (s t : List Nat) : Bool :=
  if s.length ≠ t.length then false
  else
    (decodeRunes s).all
        (fun c => buildFreq (decodeRunes t) c == buildFreq (decodeRunes s) c)
      && (decodeRunes t).all (fun c => decide (c ∈ decodeRunes s))

/-- The combined loop of isAnagramOptimized: at each index i it increments
the key `rune(s[i])` (the raw byte value of s) and decrements `rune(t[i])`
(the raw byte value of t).  Both indexings are over bytes, not runes. -/
def optLoop : (Nat → Int) → List Nat → List Nat → (Nat → Int)
  | f, a :: s1, b :: t1 => optLoop (mapDecr (mapIncr f a) b) s1 t1
  | f, _, _ => f

/-- Embeds `isAnagramOptimized` (anagram.go, solution 3): byte-length
guard, the combined byte-indexed increment/decrement loop, then the
all-values-zero check over the map's keys — every byte occurring in s or
in t. -/
def isAnagramOptimized (s t : List Nat) : Bool :=
  if s.length ≠ t.length then false
  else (s ++ t).all (fun b => optLoop emptyMap s t b == 0)

/-! ### Characterizations of the three anagram checkers -/

lemma bool_eq_of_iff {a b : Bool} (h : a = true ↔ b = true) : a = b := by
  cases a <;> cases b <;> simp_all

lemma foldl_mapIncr_apply (l : List Nat) (f : Nat → Int) (c : Nat) :
    l.foldl mapIncr f c = f c + l.count c := by
  induction l generalizing f with
  | nil => simp
  | cons a r ih =>
    rw [List.foldl_cons, ih]
    simp only [mapIncr, List.count_cons, beq_iff_eq]
    push_cast
    split_ifs <;> omega

lemma buildFreq_apply (l : List Nat) (c : Nat) : buildFreq l c = l.count c := by
  rw [buildFreq, foldl_mapIncr_apply]
  simp [emptyMap]

lemma mapDecr_nonneg {f : Nat → Int} {a : Nat} (hf : ∀ c, 0 ≤ f c) (ha : ¬ f a = 0) :
    ∀ c, 0 ≤ mapDecr f a c := by
  intro c
  unfold mapDecr
  by_cases hc : c = a
  · subst hc
    have := hf c
    simp
    omega
  · simp [hc]
    exact hf c

/-- The decrement loop of isAnagram completes (does not hit `return false`)
exactly when every rune of t still has a positive count, i.e. t's counts
are below f pointwise. -/
lemma decLoop_isSome_iff (t : List Nat) (f : Nat → Int) (hf : ∀ c, 0 ≤ f c) :
    (decLoop f t).isSome = true ↔ ∀ c, (t.count c : Int) ≤ f c := by
  induction t generalizing f with
  | nil =>
    simp only [decLoop, Option.isSome_some, List.count_nil, Nat.cast_zero, true_iff]
    exact hf
  | cons a r ih =>
    simp only [decLoop]
    by_cases h : f a = 0
    · rw [if_pos h]
      simp only [Option.isSome_none, Bool.false_eq_true, false_iff]
      intro hall
      have h2 := hall a
      rw [List.count_cons] at h2
      simp at h2
      omega
    · rw [if_neg h, ih (mapDecr f a) (mapDecr_nonneg hf h)]
      constructor
      · intro hall c
        have hc := hall c
        rw [List.count_cons]
        unfold mapDecr at hc
        by_cases hca : c = a
        · subst hca; simp at hc ⊢; omega
        · simp [hca] at hc ⊢; omega
      · intro hall c
        have hc := hall c
        rw [List.count_cons] at hc
        unfold mapDecr
        by_cases hca : c = a
        · subst hca; simp at hc ⊢; omega
        · simp [hca] at hc ⊢; omega

/-- When the decrement loop of isAnagram completes, the final count at any
rune is the initial count minus the number of occurrences in t. -/
lemma decLoop_some_apply (t : List Nat) (f g : Nat → Int)
    (h : decLoop f t = some g) (c : Nat) : g c = f c - t.count c := by
  induction t generalizing f with
  | nil =>
    simp only [decLoop, Option.some.injEq] at h
    subst h
    simp
  | cons a r ih =>
    simp only [decLoop] at h
    by_cases ha : f a = 0
    · rw [if_pos ha] at h
      cases h
    · rw [if_neg ha] at h
      rw [ih (mapDecr f a) h, List.count_cons]
      unfold mapDecr
      simp only [beq_iff_eq]
      push_cast
      split_ifs <;> omega

/-- isAnagram succeeds exactly when the byte lengths agree and every rune
occurs equally often in the decoded forms of s and t. -/
lemma isAnagram_eq_true_iff_counts (s t : List Nat) :
    isAnagram s t = true ↔
      s.length = t.length ∧
        ∀ c, (decodeRunes s).count c = (decodeRunes t).count c := by
  unfold isAnagram
  by_cases hlen : s.length = t.length
  · rw [if_neg (not_not_intro hlen)]
    have hf : ∀ c, 0 ≤ buildFreq (decodeRunes s) c := by
      intro c
      rw [buildFreq_apply]
      exact Int.natCast_nonneg _
    rcases hdl : decLoop (buildFreq (decodeRunes s)) (decodeRunes t) with _ | g
    · have hn := decLoop_isSome_iff (decodeRunes t) (buildFreq (decodeRunes s)) hf
      rw [hdl] at hn
      simp only [Option.isSome_none, Bool.false_eq_true, false_iff] at hn
      simp only [Bool.false_eq_true, false_iff, not_and]
      intro _ hcount
      exact hn fun c => by rw [buildFreq_apply]; exact_mod_cast (hcount c).ge
    · have hsub : ∀ c, ((decodeRunes t).count c : Int) ≤ buildFreq (decodeRunes s) c := by
        have hi := decLoop_isSome_iff (decodeRunes t) (buildFreq (decodeRunes s)) hf
        rw [hdl] at hi
        exact hi.mp (by simp)
      have hg : ∀ c, g c = ((decodeRunes s).count c : Int) - (decodeRunes t).count c := by
        intro c
        rw [decLoop_some_apply (decodeRunes t) (buildFreq (decodeRunes s)) g hdl c,
          buildFreq_apply]
      rw [List.all_eq_true]
      constructor
      · intro hall
        refine ⟨hlen, fun c => ?_⟩
        by_cases hc : c ∈ decodeRunes s
        · have h2 := hall c hc
          rw [hg c] at h2
          simp at h2
          omega
        · have h1 : (decodeRunes s).count c = 0 := List.count_eq_zero.mpr hc
          have h2 := hsub c
          rw [buildFreq_apply, h1] at h2
          simp at h2
          omega
      · rintro ⟨_, hcount⟩ c _
        rw [hg c, hcount c]
        simp
  · rw [if_pos hlen]
    simp [hlen]

/-- isAnagramTwoMaps succeeds exactly when the byte lengths agree and every
rune occurs equally often in the decoded forms of s and t. -/
lemma isAnagramTwoMaps_eq_true_iff_counts (s t : List Nat) :
    isAnagramTwoMaps s t = true ↔
      s.length = t.length ∧
        ∀ c, (decodeRunes s).count c = (decodeRunes t).count c := by
  unfold isAnagramTwoMaps
  by_cases hlen : s.length = t.length
  · rw [if_neg (not_not_intro hlen)]
    rw [Bool.and_eq_true, List.all_eq_true, List.all_eq_true]
    constructor
    · rintro ⟨h1, h2⟩
      refine ⟨hlen, fun c => ?_⟩
      by_cases hc : c ∈ decodeRunes s
      · have h3 := h1 c hc
        rw [buildFreq_apply, buildFreq_apply] at h3
        simp at h3
        omega
      · have hs0 : (decodeRunes s).count c = 0 := List.count_eq_zero.mpr hc
        have ht0 : (decodeRunes t).count c = 0 := by
          rw [List.count_eq_zero]
          intro hmem
          have h4 := h2 c hmem
          simp at h4
          exact hc h4
        rw [hs0, ht0]
    · rintro ⟨_, hcount⟩
      constructor
      · intro c _
        rw [buildFreq_apply, buildFreq_apply, hcount c]
        simp
      · intro c hc
        simp only [decide_eq_true_eq]
        rw [← List.count_pos_iff] at hc ⊢
        rw [hcount c]
        exact hc
  · rw [if_pos hlen]
    simp [hlen]

/-- The combined loop of isAnagramOptimized computes, at every key, the
byte count in s minus the byte count in t. -/
lemma optLoop_apply (s : List Nat) :
    ∀ t : List Nat, s.length = t.length → ∀ (f : Nat → Int) (c : Nat),
      optLoop f s t c = f c + s.count c - t.count c := by
  induction s with
  | nil =>
    intro t h f c
    cases t with
    | nil => simp [optLoop]
    | cons b t1 => simp at h
  | cons a s1 ih =>
    intro t h f c
    cases t with
    | nil => simp at h
    | cons b t1 =>
      simp only [optLoop]
      rw [ih t1 (by simpa using h)]
      simp only [mapDecr, mapIncr, List.count_cons, beq_iff_eq]
      push_cast
      split_ifs <;> omega

/-- isAnagramOptimized succeeds exactly when the byte lengths agree and
every byte occurs equally often in s and t (no UTF-8 decoding at all). -/
lemma isAnagramOptimized_eq_true_iff_counts (s t : List Nat) :
    isAnagramOptimized s t = true ↔
      s.length = t.length ∧ ∀ b, s.count b = t.count b := by
  unfold isAnagramOptimized
  by_cases hlen : s.length = t.length
  · rw [if_neg (not_not_intro hlen), List.all_eq_true]
    constructor
    · intro hall
      refine ⟨hlen, fun b => ?_⟩
      by_cases hb : b ∈ s ++ t
      · have h2 := hall b hb
        rw [optLoop_apply s t hlen] at h2
        simp [emptyMap] at h2
        omega
      · rw [List.mem_append] at hb
        push_neg at hb
        rw [List.count_eq_zero.mpr hb.1, List.count_eq_zero.mpr hb.2]
    · rintro ⟨_, hcount⟩ b _
      rw [optLoop_apply s t hlen, hcount b]
      simp [emptyMap]
  · rw [if_pos hlen]
    simp [hlen]

/-- Bytes below 0x80 decode to themselves: on pure-ASCII input Go's rune
view of a string is its byte view. -/
lemma decodeRunesAux_ascii :
    ∀ (fuel : Nat) (l : List Nat), l.length ≤ fuel → (∀ b ∈ l, b < 128) →
      decodeRunesAux fuel l = l := by
  intro fuel
  induction fuel with
  | zero =>
    intro l hl _
    cases l with
    | nil => rfl
    | cons b r => simp at hl
  | succ n ih =>
    intro l hl hb
    cases l with
    | nil => rfl
    | cons b r =>
      have hb0 : b < 128 := hb b (by simp)
      show decodeRunesAux (n + 1) (b :: r) = b :: r
      unfold decodeRunesAux
      rw [if_pos hb0, ih r (by simpa using hl) fun x hx => hb x (by simp [hx])]

lemma decodeRunes_ascii (l : List Nat) (h : ∀ b ∈ l, b < 128) : decodeRunes l = l :=
  decodeRunesAux_ascii l.length l le_rfl h

/-! ### Claims about the anagram checkers -/

/-- C8 (counterexample): the three implementations do not agree on all Go
strings.  On s = "\xC3\xA9" (the two UTF-8 bytes of é) and t = "\xA9\xC3"
(the same two bytes swapped, invalid UTF-8), the byte-indexed
isAnagramOptimized answers true while the rune-decoding isAnagram and
isAnagramTwoMaps answer false: s decodes to the single rune U+00E9 while
t decodes to two U+FFFD replacement runes. -/
theorem isAnagramOptimized_disagrees_on_non_ascii :
    isAnagramOptimized [0xC3, 0xA9] [0xA9, 0xC3] = true ∧
      isAnagram [0xC3, 0xA9] [0xA9, 0xC3] = false ∧
      isAnagramTwoMaps [0xC3, 0xA9] [0xA9, 0xC3] = false :=
  ⟨by decide, by decide, by decide⟩

/-- C8 (amended): isAnagramTwoMaps, isAnagram and isAnagramOptimized agree
on every pair of ASCII strings (every byte below 0x80), where the rune
view of a string coincides with its byte view; they can disagree on
non-ASCII or invalid-UTF-8 input. -/
theorem anagram_implementations_agree_on_ascii (s t : List Nat)
    (hs : ∀ b ∈ s, b < 128) (ht : ∀ b ∈ t, b < 128) :
    isAnagramTwoMaps s t = isAnagram s t ∧
      isAnagramOptimized s t = isAnagram s t := by
  have h2 := isAnagram_eq_true_iff_counts s t
  constructor
  · exact bool_eq_of_iff ((isAnagramTwoMaps_eq_true_iff_counts s t).trans h2.symm)
  · rw [decodeRunes_ascii s hs, decodeRunes_ascii t ht] at h2
    exact bool_eq_of_iff ((isAnagramOptimized_eq_true_iff_counts s t).trans h2.symm)

/-- C8 (witness): the agreement theorem applied at the concrete ASCII pair
s = "ab", t = "ba". -/
theorem anagram_implementations_agree_on_ascii_witness :
    isAnagramTwoMaps [97, 98] [98, 97] = isAnagram [97, 98] [98, 97] ∧
      isAnagramOptimized [97, 98] [98, 97] = isAnagram [97, 98] [98, 97] :=
  anagram_implementations_agree_on_ascii [97, 98] [98, 97]
    (by decide) (by decide)

/-- C9 (counterexample): rune-multiset equality alone does not make
isAnagram return true.  s = "\x80" (one invalid byte) and
t = "\xEF\xBF\xBD" (the valid three-byte encoding of U+FFFD) decode to the
same rune sequence [U+FFFD], yet isAnagram returns false because the byte
lengths 1 and 3 differ and the length guard fires first. -/
theorem isAnagram_not_rune_multiset_only :
    decodeRunes [0xEF, 0xBF, 0xBD] = decodeRunes [0x80] ∧
      List.Perm (decodeRunes [0xEF, 0xBF, 0xBD]) (decodeRunes [0x80]) ∧
      isAnagram [0x80] [0xEF, 0xBF, 0xBD] = false := by
  have h : decodeRunes [0xEF, 0xBF, 0xBD] = decodeRunes [0x80] := by decide
  exact ⟨h, h ▸ List.Perm.refl _, by decide⟩

/-- C9 (amended): isAnagram s t returns true iff the byte lengths of s and
t are equal AND the multiset of runes obtained by UTF-8-decoding t equals
the multiset of runes obtained by UTF-8-decoding s; in particular both
empty strings yield true. -/
theorem isAnagram_eq_true_iff_perm (s t : List Nat) :
    isAnagram s t = true ↔
      s.length = t.length ∧ List.Perm (decodeRunes t) (decodeRunes s) := by
  rw [isAnagram_eq_true_iff_counts, List.perm_iff_count]
  exact ⟨fun ⟨h1, h2⟩ => ⟨h1, fun a => (h2 a).symm⟩,
    fun ⟨h1, h2⟩ => ⟨h1, fun a => (h2 a).symm⟩⟩

/-- C10: the anagram check of isAnagram is symmetric in its two arguments,
despite the asymmetric increment-for-s / decrement-for-t algorithm. -/
theorem isAnagram_symm (s t : List Nat) : isAnagram s t = isAnagram t s := by
  have h1 := isAnagram_eq_true_iff_counts s t
  have h2 := isAnagram_eq_true_iff_counts t s
  refine bool_eq_of_iff (h1.trans ?_)
  rw [h2]
  exact ⟨fun ⟨ha, hc⟩ => ⟨ha.symm, fun c => (hc c).symm⟩,
    fun ⟨ha, hc⟩ => ⟨ha.symm, fun c => (hc c).symm⟩⟩

/-!
Part 2: the feature-flag evaluation engine of
`src/system_design/feature_flags/README.md`.  The repository contains only
the design document for this system — the `evaluate_flag` pseudocode (which
omits reason codes, the kill-switch tier and the cache layer) and prose —
so the executable definitions below are modelled from the specification's
component contracts (RuleMatcher §4.1, BucketAssigner §4.2, Evaluator §4.3,
caches §4.4, Invalidation Listener §4.5).
-/

/-- Reason codes a Decision can carry, per the Evaluator contract. -/
inductive Reason where
  | userOverride
  | flagDisabled
  | segmentMatch
  | percentageRollout
  | default
  | flagNotFound
  | storeUnavailable
deriving DecidableEq

/-- Targeting rules of a flag: percentage rollout threshold plus the
segment / explicit user / excluded user / country criteria. -/
structure TargetingRules where
  percentage : Nat
  segments : List String
  userIds : List String
  excludedUserIds : List String
  countries : List String
deriving DecidableEq

/-- A per-user override with an optional expiry timestamp. -/
structure Override where
  userId : String
  value : Bool
  expiresAt : Option Nat
deriving DecidableEq

/-- A flag record as stored for one (flagKey, environment) pair. -/
structure FlagRecord where
  flagKey : String
  environment : String
  enabled : Bool
  defaultValue : Bool
  targetingRules : TargetingRules
  overrides : List Override
  version : Nat
deriving DecidableEq

/-- The per-request evaluation context; userId and country are optional. -/
structure EvaluationContext where
  userId : Option String
  country : Option String
  segments : List String
deriving DecidableEq

/-- The decision returned by the Evaluator. -/
structure Decision where
  enabled : Bool
  reason : Reason
deriving DecidableEq

/-- Membership test against an optional context field: an absent field is
treated as non-matching for that dimension, not an error. -/
def optMem (x : Option String) (l : List String) : Bool :=
  match x with
  | some v => decide (v ∈ l)
  | none => false

/-- Modelled from the spec: RuleMatcher (§4.1) has no implementation in the
repository.  excludedUserIds is checked first and short-circuits to no
match; otherwise the segment, explicit-userId and country criteria are
combined by logical OR. -/
def ruleMatches (rules : TargetingRules) (ctx : EvaluationContext) : Bool :=
  if optMem ctx.userId rules.excludedUserIds then false
  else
    rules.segments.any (fun s => decide (s ∈ ctx.segments))
      || optMem ctx.userId rules.userIds
      || optMem ctx.country rules.countries

/-- Modelled from the spec: one step of the fixed, seed-independent
non-cryptographic hash (§9 recommends such a hash; FNV-1a 32-bit is used
here), with 32-bit wrap-around made explicit. -/
def fnvStep (h b : Nat) : Nat := ((h ^^^ b) * 16777619) % 4294967296

/-- Modelled from the spec: the BucketAssigner's hash of a concatenated
key, folding FNV-1a over the character codes. -/
def hashChars (l : List Char) : Nat := l.foldl (fun h c => fnvStep h c.toNat) 2166136261

/-- Modelled from the spec: the per-user bucket index (§4.2), a fixed
deterministic hash of flagKey concatenated with userId into [0, 100). -/
def bucketIndex (flagKey userId : String) : Nat :=
  hashChars (flagKey ++ userId).data % 100

/-- Modelled from the spec: the BucketAssigner contract (§4.2) — the user
is in the rollout iff their bucket index is strictly below percentage. -/
def inBucket (flagKey userId : String) (percentage : Nat) : Bool :=
  bucketIndex flagKey userId < percentage

/-- Whether an override is applicable at the given time (no expiry, or an
expiry still in the future). -/
def notExpired (o : Override) (now : Nat) : Bool :=
  match o.expiresAt with
  | some e => now < e
  | none => true

/-- Modelled from the spec: lookup of an unexpired user override (§4.3
tier 1); an anonymous context has no override. -/
def overrideValue (r : FlagRecord) (ctx : EvaluationContext) (now : Nat) : Option Bool :=
  match ctx.userId with
  | none => none
  | some u =>
    match r.overrides.find? (fun o => o.userId == u && notExpired o now) with
    | some o => some o.value
    | none => none

/-- Percentage rollout applied to a context: an anonymous request (no
userId) never enters the bucket, since rollout requires an identity. -/
def inBucketCtx (r : FlagRecord) (ctx : EvaluationContext) : Bool :=
  match ctx.userId with
  | some u => inBucket r.flagKey u r.targetingRules.percentage
  | none => false

/-- Modelled from the spec: the Evaluator's decision chain (§4.3) over a
resolved FlagRecord, in the fixed priority order user override, kill
switch, rule match, percentage rollout, default; the README pseudocode
omits the kill-switch tier and the reason codes, which §4.3 and §9 fix. -/
def evalRecord (r : FlagRecord) (ctx : EvaluationContext) (now : Nat) : Decision :=
  match overrideValue r ctx now with
  | some v => ⟨v, Reason.userOverride⟩
  | none =>
    if r.enabled = false then ⟨r.defaultValue, Reason.flagDisabled⟩
    else if ruleMatches r.targetingRules ctx then ⟨r.enabled, Reason.segmentMatch⟩
    else if inBucketCtx r ctx then ⟨r.enabled, Reason.percentageRollout⟩
    else ⟨r.defaultValue, Reason.default⟩

/-- Cache keys are (flagKey, environment) pairs. -/
abbrev CacheKey := String × String

/-- A cache tier's snapshot of a FlagRecord with its freshness metadata
and the version it was fetched at. -/
structure CacheEntry where
  record : FlagRecord
  fetchedAt : Nat
  expiresAt : Nat
  sourceVersion : Nat
deriving DecidableEq

/-- One cache tier (Local or Shared), modelled as an association list from
keys to entries. -/
abbrev Cache := List (CacheKey × CacheEntry)

/-- The raw association-list lookup of a cache tier. -/
def lookupEntry (c : Cache) (k : CacheKey) : Option CacheEntry :=
  match c.find? (fun p => p.1 == k) with
  | some p => some p.2
  | none => none

/-- Modelled from the spec: a cache read (§4.4) with passive TTL expiry —
an entry past expiresAt is treated as absent. -/
def cacheGet (c : Cache) (k : CacheKey) (now : Nat) : Option CacheEntry :=
  match lookupEntry c k with
  | some e => if now ≤ e.expiresAt then some e else none
  | none => none

/-- Modelled from the spec: a cache write (§4.4), replacing any previous
entry at the key. -/
def cachePut (c : Cache) (k : CacheKey) (e : CacheEntry) : Cache :=
  (k, e) :: c.filter (fun p => !(p.1 == k))

/-- Modelled from the spec: record resolution through the two cache tiers
(§4.4).  When both tiers hold a live entry for the key, the higher
sourceVersion wins and the losing tier's entry is replaced on the spot; a
shared-only hit is populated upward into the Local Cache.  Returns the
resolved entry (if any) and the updated Local and Shared caches. -/
def resolveFromCaches (loc sh : Cache) (k : CacheKey) (now : Nat) :
    Option CacheEntry × Cache × Cache :=
  match cacheGet loc k now, cacheGet sh k now with
  | some el, some es =>
    if el.sourceVersion < es.sourceVersion then (some es, cachePut loc k es, sh)
    else if es.sourceVersion < el.sourceVersion then (some el, loc, cachePut sh k el)
    else (some el, loc, sh)
  | some el, none => (some el, loc, sh)
  | none, some es => (some es, cachePut loc k es, sh)
  | none, none => (none, loc, sh)

/-- The outcome of one durable-store fetch for a key: a record, a definite
not-found, or an unreachable store (fetch timeout / connection failure). -/
inductive StoreResult where
  | found (r : FlagRecord)
  | notFound
  | unavailable
deriving DecidableEq

/-- Modelled from the spec: the public `evaluate(flagKey, environment,
context)` entry point (§4.3, §6, §7).  It resolves a record through the
cache chain, falls back to the durable store on a double miss
(write-through populating both tiers on success), maps a not-found to
defaultValue false with reason flag-not-found, and fails closed on an
unreachable store with defaultValue false and reason store-unavailable —
the function is total, so no failure can escape as an exception.  Returns
the Decision and the updated Local and Shared caches. -/
def evaluate (loc sh : Cache) (store : StoreResult) (flagKey environment : String)
    (ctx : EvaluationContext) (now ttl : Nat) : Decision × Cache × Cache :=
  match resolveFromCaches loc sh (flagKey, environment) now with
  | (some e, loc1, sh1) => (evalRecord e.record ctx now, loc1, sh1)
  | (none, loc1, sh1) =>
    match store with
    | StoreResult.found r =>
      (evalRecord r ctx now,
        cachePut loc1 (flagKey, environment) ⟨r, now, now + ttl, r.version⟩,
        cachePut sh1 (flagKey, environment) ⟨r, now, now + ttl, r.version⟩)
    | StoreResult.notFound => (⟨false, Reason.flagNotFound⟩, loc1, sh1)
    | StoreResult.unavailable => (⟨false, Reason.storeUnavailable⟩, loc1, sh1)

/-- A pub/sub change notification for one (flagKey, environment) pair. -/
structure ChangeEvent where
  flagKey : String
  environment : String
  newVersion : Nat
deriving DecidableEq

/-- Modelled from the spec: the Invalidation Listener's event application
(§4.5) — a received event evicts every entry for the event's key whose
sourceVersion is below newVersion, and leaves entries at newVersion or
higher untouched. -/
def applyEvent (c : Cache) (ev : ChangeEvent) : Cache :=
  c.filter fun p =>
    !(p.1 == (ev.flagKey, ev.environment) && decide (p.2.sourceVersion < ev.newVersion))

/-! ### Claims about the feature-flag engine -/

/-- Concrete empty targeting rules used by the example records below. -/
def rulesNone : TargetingRules := ⟨0, [], [], [], []⟩

/-- A disabled flag carrying an unexpired override for user123. -/
def disabledWithOverride : FlagRecord :=
  ⟨"checkout-v2", "prod", false, false, rulesNone, [⟨"user123", true, none⟩], 1⟩

/-- A context identifying user123. -/
def ctxUser123 : EvaluationContext := ⟨some "user123", none, []⟩

/-- C1 (counterexample): a disabled flag does NOT return defaultValue with
reason flag-disabled for every context.  With an unexpired override
user123 → true on a flag with enabled = false and defaultValue = false,
evaluating for user123 returns true with reason user-override, because the
spec fixes the override tier before the kill switch (§4.3 step 1, §9). -/
theorem disabled_flag_override_still_wins :
    disabledWithOverride.enabled = false ∧
      disabledWithOverride.defaultValue = false ∧
      evalRecord disabledWithOverride ctxUser123 0 = ⟨true, Reason.userOverride⟩ ∧
      evalRecord disabledWithOverride ctxUser123 0 ≠
        ⟨disabledWithOverride.defaultValue, Reason.flagDisabled⟩ :=
  ⟨by decide, by decide, by decide, by decide⟩

/-- C1 (amended): for every flag record with enabled = false and every
evaluation context for which no unexpired user override applies, evaluate
returns the record's defaultValue with reason flag-disabled; the kill
switch dominates every remaining tier (segment, percentage, default). -/
theorem kill_switch_dominates (r : FlagRecord) (ctx : EvaluationContext) (now : Nat)
    (hdis : r.enabled = false) (hov : overrideValue r ctx now = none) :
    evalRecord r ctx now = ⟨r.defaultValue, Reason.flagDisabled⟩ := by
  simp only [evalRecord, hov]
  rw [if_pos hdis]

/-- A disabled flag with no overrides, whose rules would otherwise match. -/
def disabledRich : FlagRecord :=
  ⟨"f1", "prod", false, true, ⟨50, ["beta"], ["u2"], [], ["US"]⟩, [], 2⟩

/-- A context that matches disabledRich's segment, userId and country. -/
def ctxRich : EvaluationContext := ⟨some "u2", some "US", ["beta"]⟩

/-- C1 (witness): the kill switch applied to a concrete disabled flag whose
rules the context would otherwise match. -/
theorem kill_switch_dominates_witness :
    evalRecord disabledRich ctxRich 5 = ⟨true, Reason.flagDisabled⟩ :=
  kill_switch_dominates disabledRich ctxRich 5 (by decide) (by decide)

/-- C2: if the durable store is unreachable and neither cache tier holds a
live entry for the key, evaluate fails closed: it returns enabled = false
(the defaultValue of an unknown record) with reason store-unavailable.
The Decision is produced by a total function, so the failure never escapes
to the caller as an exception. -/
theorem evaluate_store_unavailable_fail_closed (loc sh : Cache)
    (flagKey environment : String) (ctx : EvaluationContext) (now ttl : Nat)
    (hl : cacheGet loc (flagKey, environment) now = none)
    (hs : cacheGet sh (flagKey, environment) now = none) :
    (evaluate loc sh StoreResult.unavailable flagKey environment ctx now ttl).1 =
      ⟨false, Reason.storeUnavailable⟩ := by
  simp only [evaluate, resolveFromCaches, hl, hs]

/-- C2 (witness): the fail-closed theorem applied to empty caches. -/
theorem evaluate_store_unavailable_fail_closed_witness :
    (evaluate [] [] StoreResult.unavailable "checkout-v2" "prod" ctxUser123 0 60).1 =
      ⟨false, Reason.storeUnavailable⟩ :=
  evaluate_store_unavailable_fail_closed [] [] "checkout-v2" "prod" ctxUser123 0 60
    rfl rfl

/-- C3: rollout monotonicity — for any flagKey and userId, being in-bucket
at a percentage p1 implies being in-bucket at any larger percentage p2,
because the bucket index is a fixed hash of flagKey concatenated with
userId and only the threshold changes. -/
theorem inBucket_monotone (flagKey userId : String) (p1 p2 : Nat)
    (hp : p1 < p2) (h : inBucket flagKey userId p1 = true) :
    inBucket flagKey userId p2 = true := by
  unfold inBucket at h ⊢
  simp only [decide_eq_true_eq] at h ⊢
  omega

/-- C3 (witness): monotonicity applied at the concrete pair
(checkout-v2, user123), whose bucket index is 77, from 78% to 100%. -/
theorem inBucket_monotone_witness :
    inBucket "checkout-v2" "user123" 100 = true :=
  inBucket_monotone "checkout-v2" "user123" 78 100 (by decide) (by decide)

/-- C4: a user listed in excludedUserIds never matches, whatever the other
criteria would say — the exclusion check runs first and short-circuits the
RuleMatcher to no match. -/
theorem excluded_user_never_matches (rules : TargetingRules)
    (ctx : EvaluationContext) (u : String) (hu : ctx.userId = some u)
    (hex : u ∈ rules.excludedUserIds) :
    ruleMatches rules ctx = false := by
  have h : optMem ctx.userId rules.excludedUserIds = true := by
    unfold optMem
    rw [hu]
    simpa using hex
  simp [ruleMatches, h]

/-- Rules that target u3 by segment, userId and country, but exclude u3. -/
def rulesExcluding : TargetingRules := ⟨100, ["beta"], ["u3"], ["u3"], ["US"]⟩

/-- A context for u3 that matches every positive criterion above. -/
def ctxExcluded : EvaluationContext := ⟨some "u3", some "US", ["beta"]⟩

/-- C4 (witness): exclusion short-circuits at a concrete context matching
every other criterion. -/
theorem excluded_user_never_matches_witness :
    ruleMatches rulesExcluding ctxExcluded = false :=
  excluded_user_never_matches rulesExcluding ctxExcluded "u3" rfl (by decide)

lemma cacheGet_expiry {c : Cache} {k : CacheKey} {now : Nat} {e : CacheEntry}
    (h : cacheGet c k now = some e) : now ≤ e.expiresAt := by
  unfold cacheGet at h
  cases hl : lookupEntry c k with
  | none =>
    simp only [hl] at h
    exact Option.noConfusion h
  | some e2 =>
    simp only [hl] at h
    split at h
    · cases h
      assumption
    · cases h

lemma lookupEntry_put (c : Cache) (k : CacheKey) (e : CacheEntry) :
    lookupEntry (cachePut c k e) k = some e := by
  simp [lookupEntry, cachePut, List.find?]

lemma cacheGet_put (c : Cache) (k : CacheKey) (e : CacheEntry) (now : Nat)
    (h : now ≤ e.expiresAt) : cacheGet (cachePut c k e) k now = some e := by
  simp [cacheGet, lookupEntry_put, h]

/-- C5: whenever Local and Shared Cache hold live entries with differing
sourceVersion for the same key, the Evaluator's resolution keeps the
higher-version entry — whichever tier held it — and after resolution both
the Local and the Shared Cache hold that entry for the key, the
smaller-version entry having been discarded from its tier. -/
theorem resolve_higher_version_wins (loc sh : Cache) (k : CacheKey) (now : Nat)
    (el es : CacheEntry)
    (hl : cacheGet loc k now = some el) (hs : cacheGet sh k now = some es)
    (hne : el.sourceVersion ≠ es.sourceVersion) :
    (resolveFromCaches loc sh k now).1 =
        some (if es.sourceVersion ≤ el.sourceVersion then el else es) ∧
      cacheGet (resolveFromCaches loc sh k now).2.1 k now =
        some (if es.sourceVersion ≤ el.sourceVersion then el else es) ∧
      cacheGet (resolveFromCaches loc sh k now).2.2 k now =
        some (if es.sourceVersion ≤ el.sourceVersion then el else es) := by
  have hle := cacheGet_expiry hl
  have hse := cacheGet_expiry hs
  by_cases hv : el.sourceVersion < es.sourceVersion
  · have h1 : resolveFromCaches loc sh k now = (some es, cachePut loc k es, sh) := by
      simp only [resolveFromCaches, hl, hs, if_pos hv]
    rw [h1, if_neg (by omega)]
    exact ⟨rfl, cacheGet_put loc k es now hse, hs⟩
  · have hv2 : es.sourceVersion < el.sourceVersion := by omega
    have h1 : resolveFromCaches loc sh k now = (some el, loc, cachePut sh k el) := by
      simp only [resolveFromCaches, hl, hs, if_neg hv, if_pos hv2]
    rw [h1, if_pos (by omega)]
    exact ⟨rfl, hl, cacheGet_put sh k el now hle⟩

/-- The (checkout-v2, prod) key of the concrete tie-break scenario. -/
def exKey : CacheKey := ("checkout-v2", "prod")

/-- Version 3 of the record in the tie-break scenario. -/
def exRecV3 : FlagRecord := ⟨"checkout-v2", "prod", true, false, rulesNone, [], 3⟩

/-- Version 5 of the record in the tie-break scenario. -/
def exRecV5 : FlagRecord := ⟨"checkout-v2", "prod", true, true, rulesNone, [], 5⟩

/-- The Local Cache entry at version 3. -/
def exEntry3 : CacheEntry := ⟨exRecV3, 0, 100, 3⟩

/-- The Shared Cache entry at version 5. -/
def exEntry5 : CacheEntry := ⟨exRecV5, 0, 100, 5⟩

/-- C5 (witness): Local Cache at version 3 and Shared Cache at version 5
for the same key resolve to the version-5 entry, and both tiers hold the
version-5 entry afterwards — in particular the Local Cache is updated to
version 5. -/
theorem resolve_higher_version_wins_witness :
    (resolveFromCaches [(exKey, exEntry3)] [(exKey, exEntry5)] exKey 1).1 =
        some exEntry5 ∧
      cacheGet (resolveFromCaches [(exKey, exEntry3)] [(exKey, exEntry5)] exKey 1).2.1
          exKey 1 =
        some exEntry5 ∧
      cacheGet (resolveFromCaches [(exKey, exEntry3)] [(exKey, exEntry5)] exKey 1).2.2
          exKey 1 =
        some exEntry5 :=
  resolve_higher_version_wins [(exKey, exEntry3)] [(exKey, exEntry5)] exKey 1
    exEntry3 exEntry5 (by decide) (by decide) (by decide)

/-- C6: applying one invalidation event is idempotent — a second delivery
of the same event leaves the cache unchanged — and the event evicts
exactly the entries for its key whose sourceVersion is below newVersion,
leaving entries at or above newVersion (and entries of other keys)
untouched. -/
theorem applyEvent_idempotent (c : Cache) (ev : ChangeEvent) :
    applyEvent (applyEvent c ev) ev = applyEvent c ev ∧
      ∀ p : CacheKey × CacheEntry,
        p ∈ applyEvent c ev ↔
          p ∈ c ∧ (p.1 ≠ (ev.flagKey, ev.environment) ∨
            ev.newVersion ≤ p.2.sourceVersion) := by
  constructor
  · unfold applyEvent
    rw [List.filter_filter]
    congr 1
    funext p
    rw [Bool.and_self]
  · intro p
    unfold applyEvent
    rw [List.mem_filter]
    constructor
    · rintro ⟨hmem, hcond⟩
      refine ⟨hmem, ?_⟩
      by_cases hk : p.1 = (ev.flagKey, ev.environment)
      · right
        simp [hk] at hcond
        omega
      · left
        exact hk
    · rintro ⟨hmem, hcond⟩
      refine ⟨hmem, ?_⟩
      rcases hcond with hk | hv
      · simp [hk]
      · simp
        exact Or.inr (by omega)

/-- An enabled flag with defaultValue false, zero percentage and no
segments, userIds, countries or overrides. -/
def zeroPercentFlag : FlagRecord := ⟨"checkout-v2", "prod", true, false, rulesNone, [], 1⟩

/-- C7: for a flag with enabled = true, defaultValue = false, percentage 0
and no segments or overrides, every context evaluates to false: a bucket
index in [0, 100) is never strictly below 0, so the percentage-rollout
tier never matches and evaluation falls through to the default tier. -/
theorem zero_percentage_falls_to_default (r : FlagRecord) (ctx : EvaluationContext)
    (now : Nat) (hen : r.enabled = true) (hdv : r.defaultValue = false)
    (hp : r.targetingRules.percentage = 0)
    (hseg : r.targetingRules.segments = [])
    (huid : r.targetingRules.userIds = [])
    (hcty : r.targetingRules.countries = [])
    (hov : r.overrides = []) :
    evalRecord r ctx now = ⟨false, Reason.default⟩ ∧ inBucketCtx r ctx = false := by
  have hover : overrideValue r ctx now = none := by
    unfold overrideValue
    cases hu : ctx.userId with
    | none => rfl
    | some u => rw [hov]; rfl
  have hbucket : inBucketCtx r ctx = false := by
    unfold inBucketCtx
    cases hu : ctx.userId with
    | none => rfl
    | some u =>
      unfold inBucket
      rw [hp]
      simp
  have hmatch : ruleMatches r.targetingRules ctx = false := by
    cases hu : ctx.userId <;> cases hc : ctx.country <;>
      simp [ruleMatches, optMem, hseg, huid, hcty, hu, hc]
  refine ⟨?_, hbucket⟩
  simp [evalRecord, hover, hen, hmatch, hbucket, hdv]

/-- C7 (witness): the zero-percentage flag evaluated for user123 yields
false with reason default, and the bucket never matches. -/
theorem zero_percentage_falls_to_default_witness :
    evalRecord zeroPercentFlag ctxUser123 0 = ⟨false, Reason.default⟩ ∧
      inBucketCtx zeroPercentFlag ctxUser123 = false :=
  zero_percentage_falls_to_default zeroPercentFlag ctxUser123 0
    (by decide) (by decide) (by decide) (by decide) (by decide) (by decide) (by decide)

end Learning
